import Mathlib

/-!
Verification of the rbac repository (github.com/Seann-Moser/rbac).

Shallow embedding of the authorization core: the `matchResource` glob
matcher (manager.go), Go standard library `path.Match` (which
`matchResource` delegates to for patterns without a double star),
`Manager.Can` and `Manager.HasPermission` (the updated manager.go with
group support, the version cited by the claims), and the control flow of
`MongoStore.CreatePermission` / `MongoStore.ListRoles` (mongo.go).

Go strings are modelled as `List Char`, one `Char` per byte; this agrees
with Go byte-wise semantics on ASCII data, which is the domain of all
resource, action and identifier strings in this repository.  Stateful
repository calls are modelled as pure functions returning
`Except GoErr a`, mirroring the Go convention that a caller uses the
value only when the returned error is nil; manager entry points return
the pair `Bool x Option GoErr` exactly as the Go functions return
`(bool, error)`.  Loops whose Go termination argument is an index over a
shrinking string are given explicit fuel that is at least the iteration
bound at each call site, keeping every definition executable by `decide`.
-/

namespace Rbac

/-- Errors observable by the manager: `path.ErrBadPattern` from the glob
matcher, and opaque repository/storage errors (coded by a number). -/
inductive GoErr where
  | badPattern
  | storeErr (code : Nat)
deriving DecidableEq

/-- A Go string, one `Char` per byte (faithful for ASCII data). -/
abbrev GoString := List Char

/-- Shorthand to write Go string literals in concrete statements. -/
def gs (s : String) : GoString := s.toList

/-- Permission record (model.go): ID, Resource, Action, CreatedAt.
Go `Action` is a string type, so it is a `GoString` here. -/
structure Permission where
  id : GoString
  resource : GoString
  action : GoString
  createdAt : Int
deriving DecidableEq

/-- Role record (model.go). -/
structure Role where
  id : GoString
  name : GoString
  description : GoString
  createdAt : Int
deriving DecidableEq

/-- UserGroup membership record (model.go): `Can` reads its GroupName. -/
structure UserGroup where
  id : GoString
  groupName : GoString
  userID : GoString
  createdAt : Int
deriving DecidableEq

/-! ### Go `path.Match` (path/match.go)

`matchResource` falls back to `path.Match` for patterns without `"**"`,
and `Can` uses `path.Match` directly for action patterns, so the exact
stdlib semantics matter: `*` matches any run of non-`/` characters (a
dot is an ordinary character), and a malformed pattern yields
`ErrBadPattern`. -/

/-- `getEsc` of path/match.go: read one possibly-escaped character of a
bracket class; the class must not end here (`nchunk` must stay
non-empty). -/
def getEsc : List Char → Except GoErr (Char × List Char)
  | [] => .error .badPattern
  | c :: rest =>
    if c = '-' ∨ c = ']' then .error .badPattern
    else if c = '\\' then
      match rest with
      | [] => .error .badPattern
      | d :: rest2 => if rest2 = [] then .error .badPattern else .ok (d, rest2)
    else if rest = [] then .error .badPattern
    else .ok (c, rest)

/-- The range-parsing loop inside the `'['` case of `matchChunk`
(path/match.go): consume `lo` / `lo-hi` ranges until the closing `]`,
recording whether the rune `r` fell in any range.  Each iteration
consumes at least one character of the chunk, so fuel
`chunk.length + 1` is always sufficient. -/
def parseRangesFuel : Nat → Char → List Char → Bool → Nat →
    Except GoErr (List Char × Bool)
  | 0, _, _, _, _ => .error .badPattern
  | fuel + 1, r, chunk, matched, nrange =>
    match chunk, nrange with
    | ']' :: rest, _ + 1 => .ok (rest, matched)
    | chunk, nrange =>
      match getEsc chunk with
      | .error e => .error e
      | .ok (lo, chunk1) =>
        match chunk1 with
        | '-' :: chunk2 =>
          match getEsc chunk2 with
          | .error e => .error e
          | .ok (hi, chunk3) =>
            parseRangesFuel fuel r chunk3
              (matched || (decide (lo ≤ r) && decide (r ≤ hi))) (nrange + 1)
        | _ =>
          parseRangesFuel fuel r chunk1
            (matched || (decide (lo ≤ r) && decide (r ≤ lo))) (nrange + 1)

/-- `matchChunk` of path/match.go: match a star-free chunk against the
beginning of `s`, returning the remainder and whether it matched; after
a failure the loop keeps validating the chunk syntax without consuming
`s`.  Each iteration consumes at least one character of the chunk, so
fuel `chunk.length + 1` is always sufficient. -/
def matchChunkFuel : Nat → List Char → List Char → Bool →
    Except GoErr (List Char × Bool)
  | 0, _, _, _ => .error .badPattern
  | fuel + 1, chunk, s, failed0 =>
    match chunk with
    | [] => .ok (if failed0 then ([], false) else (s, true))
    | c :: chunkRest =>
      let failed := failed0 || s.isEmpty
      if c = '[' then
        let rs : Char × List Char :=
          match failed, s with
          | false, x :: stl => (x, stl)
          | _, _ => (Char.ofNat 0, s)
        let nb : Bool × List Char :=
          match chunkRest with
          | '^' :: rest2 => (true, rest2)
          | _ => (false, chunkRest)
        match parseRangesFuel (nb.2.length + 1) rs.1 nb.2 false 0 with
        | .error e => .error e
        | .ok (chunk2, matched) =>
          matchChunkFuel fuel chunk2 rs.2 (failed || (matched == nb.1))
      else if c = '?' then
        let fs : Bool × List Char :=
          match failed, s with
          | false, x :: stl => (x == '/', stl)
          | _, _ => (failed, s)
        matchChunkFuel fuel chunkRest fs.2 fs.1
      else if c = '\\' then
        match chunkRest with
        | [] => .error .badPattern
        | d :: rest2 =>
          let fs : Bool × List Char :=
            match failed, s with
            | false, x :: stl => (!(d == x), stl)
            | _, _ => (failed, s)
          matchChunkFuel fuel rest2 fs.2 fs.1
      else
        let fs : Bool × List Char :=
          match failed, s with
          | false, x :: stl => (!(c == x), stl)
          | _, _ => (failed, s)
        matchChunkFuel fuel chunkRest fs.2 fs.1

/-- `matchChunk` entry point (fresh `failed` flag, sufficient fuel). -/
def matchChunk (chunk s : List Char) : Except GoErr (List Char × Bool) :=
  matchChunkFuel (chunk.length + 1) chunk s false

/-- The `Scan` loop of `scanChunk` (path/match.go): collect characters
up to the next `*` that is not inside a bracket range, keeping a
backslash together with the character it escapes. -/
def scanChunkLoop : List Char → Bool → List Char × List Char
  | [], _ => ([], [])
  | c :: rest, inrange =>
    if c = '*' ∧ inrange = false then ([], c :: rest)
    else if c = '\\' then
      match rest with
      | [] => ([c], [])
      | d :: rest2 =>
        let pr := scanChunkLoop rest2 inrange
        (c :: d :: pr.1, pr.2)
    else
      let inrange2 := if c = '[' then true else if c = ']' then false else inrange
      let pr := scanChunkLoop rest inrange2
      (c :: pr.1, pr.2)

/-- Strip the leading run of `*` characters. -/
def dropStars : List Char → List Char
  | '*' :: rest => dropStars rest
  | p => p

/-- `scanChunk` of path/match.go: next segment of the pattern, which is
a star-free chunk possibly preceded by one or more stars. -/
def scanChunk (pattern : List Char) : Bool × List Char × List Char :=
  let star := match pattern with
    | '*' :: _ => true
    | _ => false
  let pr := scanChunkLoop (dropStars pattern) false
  (star, pr.1, pr.2)

/-- The inner star loop of `Match` (path/match.go): look for a match of
the chunk that skips `i + 1` bytes of the name, never skipping over a
`/`; `some t` continues the outer loop with name `t`, `none` falls
through to the mismatch exit. -/
def starTry (chunk : List Char) (patternEmpty : Bool) :
    List Char → Except GoErr (Option (List Char))
  | [] => .ok none
  | c :: restName =>
    if c = '/' then .ok none
    else
      match matchChunk chunk restName with
      | .error e => .error e
      | .ok (t, ok) =>
        if ok then
          if patternEmpty && !t.isEmpty then starTry chunk patternEmpty restName
          else .ok (some t)
        else starTry chunk patternEmpty restName

/-- The final validation loop of `Match` (path/match.go): before
returning a mismatch, check that the rest of the pattern is
syntactically valid by matching each remaining chunk against the empty
string.  Each iteration consumes at least one pattern character, so fuel
`pattern.length + 1` is always sufficient. -/
def validateRestFuel : Nat → List Char → Except GoErr Bool
  | 0, _ => .error .badPattern
  | _ + 1, [] => .ok false
  | fuel + 1, pattern =>
    let sc := scanChunk pattern
    match matchChunk sc.2.1 [] with
    | .error e => .error e
    | .ok _ => validateRestFuel fuel sc.2.2

/-- The `Pattern` loop of `Match` (path/match.go).  Each iteration
consumes at least one pattern character, so fuel `pattern.length + 1`
is always sufficient. -/
def pathMatchFuel : Nat → List Char → List Char → Except GoErr Bool
  | 0, _, _ => .error .badPattern
  | fuel + 1, pattern, name =>
    match pattern with
    | [] => .ok name.isEmpty
    | _ :: _ =>
      let sc := scanChunk pattern
      if sc.1 = true ∧ sc.2.1 = [] then .ok (!(name.contains '/'))
      else
        match matchChunk sc.2.1 name with
        | .error e => .error e
        | .ok (t, ok) =>
          if ok = true ∧ (t = [] ∨ sc.2.2 ≠ []) then pathMatchFuel fuel sc.2.2 t
          else if sc.1 then
            match starTry sc.2.1 sc.2.2.isEmpty name with
            | .error e => .error e
            | .ok (some t2) => pathMatchFuel fuel sc.2.2 t2
            | .ok none => validateRestFuel (sc.2.2.length + 1) sc.2.2
          else validateRestFuel (sc.2.2.length + 1) sc.2.2

/-- Go `path.Match pattern name`. -/
def pathMatch (pattern name : List Char) : Except GoErr Bool :=
  pathMatchFuel (pattern.length + 1) pattern name

/-! ### `matchResource` (manager.go) -/

/-- `strings.Contains(pattern, "**")` together with
`strings.SplitN(pattern, "**", 2)`: split at the first occurrence of the
double star, `none` when there is none. -/
def splitFirstDoubleStar : List Char → Option (List Char × List Char)
  | [] => none
  | '*' :: '*' :: rest => some ([], rest)
  | c :: rest =>
    match splitFirstDoubleStar rest with
    | some pr => some (c :: pr.1, pr.2)
    | none => none

/-- `matchResource` (manager.go): if the pattern contains `"**"`, split
at the first occurrence and require the resource to start with the
prefix, end with the (non-empty) suffix, and be at least
`len(prefix) + len(suffix)` long; otherwise fall back to
`path.Match`. -/
def matchResource (pattern resource : List Char) : Except GoErr Bool :=
  match splitFirstDoubleStar pattern with
  | some pr =>
    if !(pr.1.isPrefixOf resource) then .ok false
    else if pr.2 ≠ [] ∧ !(pr.2.isSuffixOf resource) then .ok false
    else if resource.length < pr.1.length + pr.2.length then .ok false
    else .ok true
  | none => pathMatch pattern resource

/-! ### Manager (manager.go, updated version with group support)

The `Manager` holds repository interfaces; `Can` uses
`UR.ListRoles`, `UG.GetGroupsByUserID`, `GR.ListRolesForGroup`,
`RP.ListPermissions` and `Perms.GetPermissionByID`, and
`HasPermission` uses `UR.ListRoles` and `RP.ListPermissions`.
`Roles.GetRoleByName` and `DefaultRoleName` are carried along because
the default-role wiring (mongo.go) refers to them; the remaining
manager methods are one-line delegations to the repositories and play
no part in the claims.  Each repository call is a pure function
returning `Except GoErr a`: the Go manager reads the returned value
only when the returned error is nil. -/
structure Manager where
  urListRoles : GoString → Except GoErr (List GoString)
  ugGetGroupsByUserID : GoString → Except GoErr (List UserGroup)
  grListRolesForGroup : GoString → Except GoErr (List GoString)
  rpListPermissions : GoString → Except GoErr (List GoString)
  permsGetPermissionByID : GoString → Except GoErr (Option Permission)
  rolesGetRoleByName : GoString → Except GoErr (Option Role)
  DefaultRoleName : GoString

/-- The group loop of `Can` (manager.go): for each membership record,
fetch the roles granted to `ug.GroupName` and append them, aborting on
the first lookup error. -/
def collectGroupRoles (m : Manager) : List UserGroup → Except GoErr (List GoString)
  | [] => .ok []
  | ug :: rest =>
    match m.grListRolesForGroup ug.groupName with
    | .error e => .error e
    | .ok grpRoles =>
      match collectGroupRoles m rest with
      | .error e => .error e
      | .ok more => .ok (grpRoles ++ more)

/-- The inner permission loop of `Can` (manager.go): fetch each
permission record, skip a nil record, test the resource pattern and
then the action pattern, stopping at the first full match; any lookup
or matcher error aborts. -/
def scanPerms (m : Manager) (resource action : GoString) :
    List GoString → Except GoErr Bool
  | [] => .ok false
  | pid :: rest =>
    match m.permsGetPermissionByID pid with
    | .error e => .error e
    | .ok none => scanPerms m resource action rest
    | .ok (some perm) =>
      match matchResource perm.resource resource with
      | .error e => .error e
      | .ok false => scanPerms m resource action rest
      | .ok true =>
        match pathMatch perm.action action with
        | .error e => .error e
        | .ok true => .ok true
        | .ok false => scanPerms m resource action rest

/-- The outer role loop of `Can` (manager.go): fetch each role's
permission IDs and scan them; `allow` short-circuits both loops. -/
def scanRoles (m : Manager) (resource action : GoString) :
    List GoString → Except GoErr Bool
  | [] => .ok false
  | roleID :: rest =>
    match m.rpListPermissions roleID with
    | .error e => .error e
    | .ok permIDs =>
      match scanPerms m resource action permIDs with
      | .error e => .error e
      | .ok true => .ok true
      | .ok false => scanRoles m resource action rest

/-- `Manager.Can` (manager.go, updated version): direct roles, then
group-derived roles, then the permission-matching loops; every error
return in the Go source is the pair `(false, err)`, and the success
return is `(allow, nil)`. -/
def Can (m : Manager) (userID resource action : GoString) : Bool × Option GoErr :=
  match m.urListRoles userID with
  | .error e => (false, some e)
  | .ok roles =>
    match m.ugGetGroupsByUserID userID with
    | .error e => (false, some e)
    | .ok groups =>
      match collectGroupRoles m groups with
      | .error e => (false, some e)
      | .ok grpRoles =>
        match scanRoles m resource action (roles ++ grpRoles) with
        | .error e => (false, some e)
        | .ok allow => (allow, none)

/-- The role loop of `HasPermission` (manager.go): for each direct
role, list its permission IDs and compare each against `permID`. -/
def hasPermScanRoles (m : Manager) (permID : GoString) :
    List GoString → Except GoErr Bool
  | [] => .ok false
  | r :: rest =>
    match m.rpListPermissions r with
    | .error e => .error e
    | .ok perms =>
      if perms.contains permID then .ok true
      else hasPermScanRoles m permID rest

/-- `Manager.HasPermission` (manager.go): checks only the user's direct
role list from `UR.ListRoles` for a role granting exactly `permID`. -/
def HasPermission (m : Manager) (userID permID : GoString) : Bool × Option GoErr :=
  match m.urListRoles userID with
  | .error e => (false, some e)
  | .ok roles =>
    match hasPermScanRoles m permID roles with
    | .error e => (false, some e)
    | .ok b => (b, none)

/-! ### MongoStore fragments (mongo.go) -/

/-- `MongoStore.GetPermissionByResource` (mongo.go): first stored
permission with the given resource and action, absent otherwise.  The
collection is modelled as the list of stored permission records. -/
def mongoGetPermissionByResource (col : List Permission)
    (resource action : GoString) : Option Permission :=
  col.find? (fun p => p.resource == resource && p.action == action)

/-- `MongoStore.CreatePermission` (mongo.go): if a permission with the
same resource and action exists, adopt its ID and CreatedAt and return
nil; otherwise insert a new document (ID generation and the clock are
parameters `newID` / `now`; the driver insert is assumed to succeed).
No validation of the pattern syntax is performed anywhere on this
path.  Returns the updated collection, the (mutated) permission record,
and the returned error. -/
def mongoCreatePermission (col : List Permission) (p : Permission)
    (newID : GoString) (now : Int) :
    List Permission × Permission × Option GoErr :=
  match mongoGetPermissionByResource col p.resource p.action with
  | some tmp => (col, { p with id := tmp.id, createdAt := tmp.createdAt }, none)
  | none =>
    (col ++ [{ p with id := newID, createdAt := now }],
     { p with id := newID }, none)

/-- `MongoStore.ListRoles` (mongo.go, user-role repo): the user's
stored role IDs, with the ID of the role named "default" appended when
such a role exists.  The stored relation and the role lookup are
parameters. -/
def mongoListRoles (stored : GoString → List GoString)
    (defaultRole : Option Role) (userID : GoString) : List GoString :=
  match defaultRole with
  | some r => stored userID ++ [r.id]
  | none => stored userID

/-! ### Specification-side characterizations -/

/-- Whether an `Except` result is a successful `true`. -/
def exceptIsOkTrue : Except GoErr Bool → Bool
  | .ok true => true
  | _ => false

/-- Specification-side predicate: a (possibly absent) permission record
grants the request, i.e. its resource pattern matches the resource and
its action pattern matches the action, both without error. -/
def permGrants (resource action : GoString) : Option Permission → Bool
  | none => false
  | some perm =>
    exceptIsOkTrue (matchResource perm.resource resource) &&
    exceptIsOkTrue (pathMatch perm.action action)

/-- Concatenation of the per-group role lists, in group order. -/
def concatMapUG (gr : UserGroup → List GoString) : List UserGroup → List GoString
  | [] => []
  | ug :: rest => gr ug ++ concatMapUG gr rest

/-! ### Lemmas about the evaluation loops -/

theorem collectGroupRoles_eq (m : Manager) (gr : UserGroup → List GoString) :
    ∀ groups : List UserGroup,
    (∀ ug ∈ groups, m.grListRolesForGroup ug.groupName = .ok (gr ug)) →
    collectGroupRoles m groups = .ok (concatMapUG gr groups) := by
  intro groups
  induction groups with
  | nil => intro _; rfl
  | cons ug rest ih =>
    intro h
    have hug := h ug (List.mem_cons_self ug rest)
    have hrest := ih (fun x hx => h x (List.mem_cons_of_mem ug hx))
    simp [collectGroupRoles, hug, hrest, concatMapUG]

theorem scanPerms_eq_any (m : Manager) (resource action : GoString)
    (po : GoString → Option Permission) :
    ∀ pids : List GoString,
    (∀ pid ∈ pids, m.permsGetPermissionByID pid = .ok (po pid)) →
    (∀ pid ∈ pids, ∀ perm, po pid = some perm →
      (∃ b, matchResource perm.resource resource = .ok b) ∧
      (∃ b, pathMatch perm.action action = .ok b)) →
    scanPerms m resource action pids =
      .ok (pids.any fun pid => permGrants resource action (po pid)) := by
  intro pids
  induction pids with
  | nil => intro _ _; rfl
  | cons pid rest ih =>
    intro h1 h2
    have hpid := h1 pid (List.mem_cons_self pid rest)
    have hrest := ih (fun x hx => h1 x (List.mem_cons_of_mem pid hx))
      (fun x hx => h2 x (List.mem_cons_of_mem pid hx))
    cases hpo : po pid with
    | none =>
      rw [hpo] at hpid
      simp [scanPerms, hpid, hrest, hpo, permGrants]
    | some perm =>
      rw [hpo] at hpid
      obtain ⟨⟨b1, hb1⟩, ⟨b2, hb2⟩⟩ :=
        h2 pid (List.mem_cons_self pid rest) perm hpo
      cases b1 with
      | false =>
        simp [scanPerms, hpid, hb1, hrest, hpo, permGrants, exceptIsOkTrue]
      | true =>
        cases b2 with
        | false =>
          simp [scanPerms, hpid, hb1, hb2, hrest, hpo, permGrants, exceptIsOkTrue]
        | true =>
          simp [scanPerms, hpid, hb1, hb2, hpo, permGrants, exceptIsOkTrue]

theorem scanRoles_eq_any (m : Manager) (resource action : GoString)
    (ps : GoString → List GoString) (po : GoString → Option Permission) :
    ∀ rs : List GoString,
    (∀ r ∈ rs, m.rpListPermissions r = .ok (ps r)) →
    (∀ r ∈ rs, ∀ pid ∈ ps r, m.permsGetPermissionByID pid = .ok (po pid)) →
    (∀ r ∈ rs, ∀ pid ∈ ps r, ∀ perm, po pid = some perm →
      (∃ b, matchResource perm.resource resource = .ok b) ∧
      (∃ b, pathMatch perm.action action = .ok b)) →
    scanRoles m resource action rs =
      .ok (rs.any fun r =>
        (ps r).any fun pid => permGrants resource action (po pid)) := by
  intro rs
  induction rs with
  | nil => intro _ _ _; rfl
  | cons r rest ih =>
    intro h1 h2 h3
    have hr := h1 r (List.mem_cons_self r rest)
    have hscan := scanPerms_eq_any m resource action po (ps r)
      (h2 r (List.mem_cons_self r rest)) (h3 r (List.mem_cons_self r rest))
    have hrest := ih (fun x hx => h1 x (List.mem_cons_of_mem r hx))
      (fun x hx => h2 x (List.mem_cons_of_mem r hx))
      (fun x hx => h3 x (List.mem_cons_of_mem r hx))
    cases hany : (ps r).any fun pid => permGrants resource action (po pid) with
    | false =>
      rw [hany] at hscan
      simp [scanRoles, hr, hscan, hrest, hany]
    | true =>
      rw [hany] at hscan
      simp [scanRoles, hr, hscan, hany]

theorem scanPerms_append_ok_false (m : Manager) (resource action : GoString)
    (ps2 : List GoString) :
    ∀ ps1 : List GoString, scanPerms m resource action ps1 = .ok false →
    scanPerms m resource action (ps1 ++ ps2) = scanPerms m resource action ps2 := by
  intro ps1
  induction ps1 with
  | nil => intro _; rfl
  | cons pid rest ih =>
    intro h
    rw [List.cons_append]
    rw [scanPerms] at h ⊢
    cases hpid : m.permsGetPermissionByID pid with
    | error e => simp [hpid] at h
    | ok optPerm =>
      simp only [hpid] at h
      cases optPerm with
      | none => dsimp only; exact ih h
      | some perm =>
        dsimp only
        cases hres : matchResource perm.resource resource with
        | error e => simp [hres] at h
        | ok bres =>
          simp only [hres] at h
          cases bres with
          | false => dsimp only; exact ih h
          | true =>
            dsimp only
            cases hact : pathMatch perm.action action with
            | error e => simp [hact] at h
            | ok bact =>
              simp only [hact] at h
              cases bact with
              | false => dsimp only; exact ih h
              | true => simp at h

theorem scanRoles_append_ok_false (m : Manager) (resource action : GoString)
    (rs2 : List GoString) :
    ∀ rs1 : List GoString, scanRoles m resource action rs1 = .ok false →
    scanRoles m resource action (rs1 ++ rs2) = scanRoles m resource action rs2 := by
  intro rs1
  induction rs1 with
  | nil => intro _; rfl
  | cons r rest ih =>
    intro h
    rw [List.cons_append]
    rw [scanRoles] at h ⊢
    cases hr : m.rpListPermissions r with
    | error e => simp [hr] at h
    | ok pids =>
      simp only [hr] at h
      dsimp only
      cases hscan : scanPerms m resource action pids with
      | error e => simp [hscan] at h
      | ok b =>
        simp only [hscan] at h
        cases b with
        | false => dsimp only; exact ih h
        | true => simp at h

theorem collectGroupRoles_error_of (m : Manager) (ug : UserGroup)
    (gs2 : List UserGroup) (e : GoErr)
    (hug : m.grListRolesForGroup ug.groupName = .error e) :
    ∀ gs1 : List UserGroup, (∃ l, collectGroupRoles m gs1 = .ok l) →
    collectGroupRoles m (gs1 ++ ug :: gs2) = .error e := by
  intro gs1
  induction gs1 with
  | nil => intro _; simp [collectGroupRoles, hug]
  | cons g rest ih =>
    intro h
    obtain ⟨l, hl⟩ := h
    rw [collectGroupRoles] at hl
    rw [List.cons_append, collectGroupRoles]
    cases hg : m.grListRolesForGroup g.groupName with
    | error e2 => simp [hg] at hl
    | ok gl =>
      simp only [hg] at hl
      cases hrest : collectGroupRoles m rest with
      | error e2 => simp [hrest] at hl
      | ok more => rw [ih ⟨more, hrest⟩]

theorem scanPerms_error_at (m : Manager) (resource action : GoString)
    (pid : GoString) (ps2 : List GoString) (e : GoErr)
    (hbad :
      m.permsGetPermissionByID pid = .error e
      ∨ (∃ perm, m.permsGetPermissionByID pid = .ok (some perm) ∧
          (matchResource perm.resource resource = .error e
           ∨ (matchResource perm.resource resource = .ok true ∧
              pathMatch perm.action action = .error e)))) :
    ∀ ps1 : List GoString, scanPerms m resource action ps1 = .ok false →
    scanPerms m resource action (ps1 ++ pid :: ps2) = .error e := by
  intro ps1 h1
  rw [scanPerms_append_ok_false m resource action (pid :: ps2) ps1 h1]
  rcases hbad with hfetch | ⟨perm, hperm, hmr⟩
  · simp [scanPerms, hfetch]
  · rcases hmr with hres | ⟨hres, hact⟩
    · simp [scanPerms, hperm, hres]
    · simp [scanPerms, hperm, hres, hact]

theorem scanRoles_error_at (m : Manager) (resource action : GoString)
    (r : GoString) (rs2 : List GoString) (e : GoErr)
    (hbad :
      m.rpListPermissions r = .error e
      ∨ (∃ pids, m.rpListPermissions r = .ok pids ∧
          scanPerms m resource action pids = .error e)) :
    ∀ rs1 : List GoString, scanRoles m resource action rs1 = .ok false →
    scanRoles m resource action (rs1 ++ r :: rs2) = .error e := by
  intro rs1 h1
  rw [scanRoles_append_ok_false m resource action (r :: rs2) rs1 h1]
  rcases hbad with hfetch | ⟨pids, hpids, hscan⟩
  · simp [scanRoles, hfetch]
  · simp [scanRoles, hpids, hscan]

/-! ### Decidability and Boolean helpers for concrete evaluation -/

instance {e a : Type} [DecidableEq e] [DecidableEq a] : DecidableEq (Except e a)
  | .error x, .error y =>
    if h : x = y then .isTrue (h ▸ rfl)
    else .isFalse (fun hc => h (Except.error.inj hc))
  | .error _, .ok _ => .isFalse (fun hc => Except.noConfusion hc)
  | .ok _, .error _ => .isFalse (fun hc => Except.noConfusion hc)
  | .ok x, .ok y =>
    if h : x = y then .isTrue (h ▸ rfl)
    else .isFalse (fun hc => h (Except.ok.inj hc))

/-- Whether an `Except` result is a success. -/
def exceptIsOk : Except GoErr Bool → Bool
  | .ok _ => true
  | .error _ => false

theorem exceptIsOk_exists (x : Except GoErr Bool) (h : exceptIsOk x = true) :
    ∃ b, x = .ok b := by
  cases x with
  | ok b => exact ⟨b, rfl⟩
  | error e => simp [exceptIsOk] at h

/-- Both matcher calls for a (possibly absent) permission record return
without error on the given request. -/
def permMatcherOk (resource action : GoString) : Option Permission → Bool
  | none => true
  | some perm =>
    exceptIsOk (matchResource perm.resource resource) &&
    exceptIsOk (pathMatch perm.action action)

/-! ### Concrete repository states used by witnesses and counterexamples -/

/-- Permission granting action "read" on resource "survey". -/
def permSurveyRead : Permission :=
  { id := gs "p1", resource := gs "survey", action := gs "read", createdAt := 0 }

/-- Permission whose resource pattern has an unbalanced bracket. -/
def permBadPat : Permission :=
  { id := gs "p1", resource := gs "survey.[", action := gs "read", createdAt := 0 }

/-- Membership record putting user "alice" in group "team". -/
def ugTeam : UserGroup :=
  { id := gs "ug1", groupName := gs "team", userID := gs "alice", createdAt := 0 }

/-- The role named "default". -/
def roleDefault : Role :=
  { id := gs "role-default", name := gs "default", description := gs "", createdAt := 0 }

/-- Repository state where alice holds the permission-less direct role
r0 and inherits role r1 (which grants p1 = (survey, read)) only through
membership in group team. -/
def mgrGroupGrant : Manager :=
  { urListRoles := fun u => if u = gs "alice" then .ok [gs "r0"] else .ok []
    ugGetGroupsByUserID := fun u => if u = gs "alice" then .ok [ugTeam] else .ok []
    grListRolesForGroup := fun g => if g = gs "team" then .ok [gs "r1"] else .ok []
    rpListPermissions := fun r => if r = gs "r1" then .ok [gs "p1"] else .ok []
    permsGetPermissionByID := fun pid =>
      if pid = gs "p1" then .ok (some permSurveyRead) else .ok none
    rolesGetRoleByName := fun _ => .ok none
    DefaultRoleName := gs "" }

/-- Repository state whose direct-role lookup fails. -/
def mgrURErr : Manager :=
  { urListRoles := fun _ => .error (.storeErr 7)
    ugGetGroupsByUserID := fun _ => .ok []
    grListRolesForGroup := fun _ => .ok []
    rpListPermissions := fun _ => .ok []
    permsGetPermissionByID := fun _ => .ok none
    rolesGetRoleByName := fun _ => .ok none
    DefaultRoleName := gs "" }

/-- Repository state where alice's role r1 grants a permission whose
resource pattern is malformed. -/
def mgrBadPat : Manager :=
  { urListRoles := fun u => if u = gs "alice" then .ok [gs "r1"] else .ok []
    ugGetGroupsByUserID := fun _ => .ok []
    grListRolesForGroup := fun _ => .ok []
    rpListPermissions := fun r => if r = gs "r1" then .ok [gs "p1"] else .ok []
    permsGetPermissionByID := fun pid =>
      if pid = gs "p1" then .ok (some permBadPat) else .ok none
    rolesGetRoleByName := fun _ => .ok none
    DefaultRoleName := gs "" }

/-- Repository state with a configured and resolvable default role that
grants (survey, read), while no user holds any direct role or group. -/
def mgrDefaultIgnored : Manager :=
  { urListRoles := fun _ => .ok []
    ugGetGroupsByUserID := fun _ => .ok []
    grListRolesForGroup := fun _ => .ok []
    rpListPermissions := fun r => if r = gs "role-default" then .ok [gs "p1"] else .ok []
    permsGetPermissionByID := fun pid =>
      if pid = gs "p1" then .ok (some permSurveyRead) else .ok none
    rolesGetRoleByName := fun n => if n = gs "default" then .ok (some roleDefault) else .ok none
    DefaultRoleName := gs "default" }

/-- Same state but with the user-role repository behaving like
`MongoStore.ListRoles`: the default role ID is appended to every
direct-role answer. -/
def mgrMongoDefault : Manager :=
  { mgrDefaultIgnored with urListRoles := fun _ => .ok [gs "role-default"] }

/-- Repository state where role r1 lists a dangling permission ID
"dead" before the live permission p1. -/
def mgrDangling : Manager :=
  { urListRoles := fun u => if u = gs "alice" then .ok [gs "r1"] else .ok []
    ugGetGroupsByUserID := fun _ => .ok []
    grListRolesForGroup := fun _ => .ok []
    rpListPermissions := fun r =>
      if r = gs "r1" then .ok [gs "dead", gs "p1"] else .ok []
    permsGetPermissionByID := fun pid =>
      if pid = gs "p1" then .ok (some permSurveyRead) else .ok none
    rolesGetRoleByName := fun _ => .ok none
    DefaultRoleName := gs "" }

/-! ### Claim theorems -/

/-- C1: when every repository lookup succeeds and every encountered
pattern is well-formed, `Can` returns `true` exactly when some role in
the user's effective role set — the direct roles together with the
roles granted to each group the user belongs to — grants a permission
whose resource pattern matches the resource and whose action pattern
matches the action; otherwise it returns `false`, and in both cases
the returned error is nil. -/
theorem Can_iff_effective_role_grants (m : Manager)
    (userID resource action : GoString)
    (directRoles : List GoString) (groups : List UserGroup)
    (gr : UserGroup → List GoString) (ps : GoString → List GoString)
    (po : GoString → Option Permission)
    (h1 : m.urListRoles userID = .ok directRoles)
    (h2 : m.ugGetGroupsByUserID userID = .ok groups)
    (h3 : ∀ ug ∈ groups, m.grListRolesForGroup ug.groupName = .ok (gr ug))
    (h4 : ∀ r ∈ directRoles ++ concatMapUG gr groups,
        m.rpListPermissions r = .ok (ps r))
    (h5 : ∀ r ∈ directRoles ++ concatMapUG gr groups, ∀ pid ∈ ps r,
        m.permsGetPermissionByID pid = .ok (po pid))
    (h6 : ∀ r ∈ directRoles ++ concatMapUG gr groups, ∀ pid ∈ ps r,
        permMatcherOk resource action (po pid) = true) :
    Can m userID resource action =
      ((directRoles ++ concatMapUG gr groups).any fun r =>
        (ps r).any fun pid => permGrants resource action (po pid), none) := by
  have h6x : ∀ r ∈ directRoles ++ concatMapUG gr groups, ∀ pid ∈ ps r,
      ∀ perm, po pid = some perm →
      (∃ b, matchResource perm.resource resource = .ok b) ∧
      (∃ b, pathMatch perm.action action = .ok b) := by
    intro r hr pid hpid perm hperm
    have hh := h6 r hr pid hpid
    rw [hperm] at hh
    simp only [permMatcherOk, Bool.and_eq_true] at hh
    exact ⟨exceptIsOk_exists _ hh.1, exceptIsOk_exists _ hh.2⟩
  have hc := collectGroupRoles_eq m gr groups h3
  have hs := scanRoles_eq_any m resource action ps po
    (directRoles ++ concatMapUG gr groups) h4 h5 h6x
  simp [Can, h1, h2, hc, hs]

/-- Witness for C1: in `mgrGroupGrant`, alice holds no granting direct
role but inherits the granting role r1 through group team, and `Can`
allows (survey, read). -/
theorem Can_iff_effective_role_grants_witness :
    Can mgrGroupGrant (gs "alice") (gs "survey") (gs "read") = (true, none) :=
  Can_iff_effective_role_grants mgrGroupGrant (gs "alice") (gs "survey") (gs "read")
    [gs "r0"] [ugTeam]
    (fun _ => [gs "r1"])
    (fun r => if r = gs "r1" then [gs "p1"] else [])
    (fun pid => if pid = gs "p1" then some permSurveyRead else none)
    (by decide) (by decide) (by decide) (by decide) (by decide) (by decide)

/-- C2 counterexample: the claim says
`matchResource "survey.*.test" "survey.foo.bar.test"` is false, but the
single-star fallback is Go `path.Match`, whose `*` stops only at `/`
(not at `.`), so the code returns true. -/
theorem singleStar_crosses_dot_counterexample :
    matchResource (gs "survey.*.test") (gs "survey.foo.bar.test") = .ok true := by
  decide

/-- C2 amended: for pattern "survey.*.test" the matcher accepts
"survey.foo.test", "survey.bar.test" and also "survey.foo.bar.test"
(the `*` of `path.Match` crosses dot boundaries, stopping only at `/`),
and rejects "surveys.foo.test". -/
theorem singleStar_matcher_facts :
    matchResource (gs "survey.*.test") (gs "survey.foo.test") = .ok true ∧
    matchResource (gs "survey.*.test") (gs "survey.bar.test") = .ok true ∧
    matchResource (gs "survey.*.test") (gs "survey.foo.bar.test") = .ok true ∧
    matchResource (gs "survey.*.test") (gs "surveys.foo.test") = .ok false := by
  decide

/-- C3 counterexample: the claim says
`matchResource "survey.**.test" "survey.test"` is true (zero absorbed
segments), but the code requires the resource to be at least
`len(prefix) + len(suffix)` = 12 characters long, and "survey.test"
has 11, so the code returns false. -/
theorem doubleStar_zero_segments_counterexample :
    matchResource (gs "survey.**.test") (gs "survey.test") = .ok false := by
  decide

/-- C3 amended: pattern "survey.**.test" matches "survey.foo.test" and
"survey.foo.bar.test" but not "survey.test": the resource must carry
the full prefix "survey." and suffix ".test" without overlap, so the
zero-segment form is rejected. -/
theorem doubleStar_matcher_facts :
    matchResource (gs "survey.**.test") (gs "survey.foo.test") = .ok true ∧
    matchResource (gs "survey.**.test") (gs "survey.foo.bar.test") = .ok true ∧
    matchResource (gs "survey.**.test") (gs "survey.test") = .ok false := by
  decide

/-- C4 counterexample: `DefaultRoleName` is configured and resolves to
a role that grants (survey, read), yet `Can` returns `(false, nil)` for
a user with no direct roles and no groups — `Can` never consults
`DefaultRoleName`. -/
theorem Can_ignores_DefaultRoleName_counterexample :
    mgrDefaultIgnored.DefaultRoleName = gs "default" ∧
    mgrDefaultIgnored.rolesGetRoleByName (gs "default") = .ok (some roleDefault) ∧
    mgrDefaultIgnored.rpListPermissions roleDefault.id = .ok [gs "p1"] ∧
    scanPerms mgrDefaultIgnored (gs "survey") (gs "read") [gs "p1"] = .ok true ∧
    Can mgrDefaultIgnored (gs "alice") (gs "survey") (gs "read") = (false, none) := by
  decide

/-- C4 amended: the default role enters an evaluation only through the
repository itself — `MongoStore.ListRoles` appends the ID of the role
named "default" to every direct-role answer — and when the user-role
lookup reports the default role ID in this way and that role grants a
matching permission, `Can` returns `(true, nil)` for the user. -/
theorem Can_default_role_via_repo_listRoles (m : Manager)
    (userID resource action : GoString)
    (dr grs pids : List GoString) (rD : GoString) (groups : List UserGroup)
    (h1 : m.urListRoles userID = .ok (dr ++ [rD]))
    (h2 : m.ugGetGroupsByUserID userID = .ok groups)
    (h3 : collectGroupRoles m groups = .ok grs)
    (h4 : scanRoles m resource action dr = .ok false)
    (h5 : m.rpListPermissions rD = .ok pids)
    (h6 : scanPerms m resource action pids = .ok true) :
    Can m userID resource action = (true, none) := by
  have hsr : scanRoles m resource action ((dr ++ [rD]) ++ grs) = .ok true := by
    rw [List.append_assoc]
    rw [scanRoles_append_ok_false m resource action ([rD] ++ grs) dr h4]
    simp [scanRoles, h5, h6]
  simp only [List.append_assoc, List.singleton_append] at hsr
  simp [Can, h1, h2, h3, hsr]

/-- Witness for the amended C4: with the Mongo-like user-role
repository of `mgrMongoDefault`, a user with no stored roles and no
groups is allowed (survey, read) through the default role. -/
theorem Can_default_role_via_repo_listRoles_witness :
    Can mgrMongoDefault (gs "bob") (gs "survey") (gs "read") = (true, none) :=
  Can_default_role_via_repo_listRoles mgrMongoDefault (gs "bob")
    (gs "survey") (gs "read") [] [] [gs "p1"] (gs "role-default") []
    (by decide) (by decide) (by decide) (by decide) (by decide) (by decide)

/-- C5 counterexample: in `mgrGroupGrant` alice's only grant of p1
comes through the group-held role r1; the claim says `HasPermission`
returns true, but the code checks only direct roles and returns
`(false, nil)` — while `Can` on the same state does honor the group
grant. -/
theorem HasPermission_ignores_groups_counterexample :
    HasPermission mgrGroupGrant (gs "alice") (gs "p1") = (false, none) ∧
    Can mgrGroupGrant (gs "alice") (gs "survey") (gs "read") = (true, none) := by
  decide

/-- C5 amended: `HasPermission` returns true exactly when some role in
the user's direct role list (from `UR.ListRoles` alone — group-derived
roles are not consulted) grants exactly the permission ID, and the
returned error is nil when the lookups succeed. -/
theorem HasPermission_eq_direct_roles_any (m : Manager)
    (userID permID : GoString) (roles : List GoString)
    (ps : GoString → List GoString)
    (h1 : m.urListRoles userID = .ok roles)
    (h2 : ∀ r ∈ roles, m.rpListPermissions r = .ok (ps r)) :
    HasPermission m userID permID =
      (roles.any fun r => (ps r).contains permID, none) := by
  have hmain : ∀ rs : List GoString,
      (∀ r ∈ rs, m.rpListPermissions r = .ok (ps r)) →
      hasPermScanRoles m permID rs =
        .ok (rs.any fun r => (ps r).contains permID) := by
    intro rs
    induction rs with
    | nil => intro _; rfl
    | cons r rest ih =>
      intro h
      have hr := h r (List.mem_cons_self r rest)
      have hrest := ih (fun x hx => h x (List.mem_cons_of_mem r hx))
      by_cases hmem : permID ∈ ps r
      · simp [hasPermScanRoles, hr, hmem]
      · simp [hasPermScanRoles, hr, hmem, hrest]
  simp [HasPermission, h1, hmain roles h2]

/-- Witness for the amended C5: in `mgrBadPat` alice's direct role r1
grants p1, so `HasPermission` returns `(true, nil)` (no pattern is ever
inspected). -/
theorem HasPermission_eq_direct_roles_any_witness :
    HasPermission mgrBadPat (gs "alice") (gs "p1") = (true, none) :=
  HasPermission_eq_direct_roles_any mgrBadPat (gs "alice") (gs "p1")
    [gs "r1"] (fun r => if r = gs "r1" then [gs "p1"] else [])
    (by decide) (by decide)

/-- C6: if any repository lookup encountered during the evaluation —
the direct-role list, the group list, a group-role list after the
earlier groups succeeded, a role-permission list after the earlier
roles were scanned without a match, or a permission-by-ID fetch after
the earlier permissions of that role were scanned without a match —
returns an error, `Can` aborts and returns `(false, that error)`; the
failure is never converted into a boolean decision. -/
theorem Can_aborts_on_lookup_error (m : Manager)
    (userID resource action : GoString) (e : GoErr)
    (h :
      m.urListRoles userID = .error e
      ∨ (∃ roles, m.urListRoles userID = .ok roles ∧
          m.ugGetGroupsByUserID userID = .error e)
      ∨ (∃ roles ga ug gb l, m.urListRoles userID = .ok roles ∧
          m.ugGetGroupsByUserID userID = .ok (ga ++ ug :: gb) ∧
          collectGroupRoles m ga = .ok l ∧
          m.grListRolesForGroup ug.groupName = .error e)
      ∨ (∃ roles groups grpRoles ra r rb, m.urListRoles userID = .ok roles ∧
          m.ugGetGroupsByUserID userID = .ok groups ∧
          collectGroupRoles m groups = .ok grpRoles ∧
          roles ++ grpRoles = ra ++ r :: rb ∧
          scanRoles m resource action ra = .ok false ∧
          m.rpListPermissions r = .error e)
      ∨ (∃ roles groups grpRoles ra r rb pids pa pid pb,
          m.urListRoles userID = .ok roles ∧
          m.ugGetGroupsByUserID userID = .ok groups ∧
          collectGroupRoles m groups = .ok grpRoles ∧
          roles ++ grpRoles = ra ++ r :: rb ∧
          scanRoles m resource action ra = .ok false ∧
          m.rpListPermissions r = .ok pids ∧
          pids = pa ++ pid :: pb ∧
          scanPerms m resource action pa = .ok false ∧
          m.permsGetPermissionByID pid = .error e)) :
    Can m userID resource action = (false, some e) := by
  rcases h with h1
    | ⟨roles, h1, h2⟩
    | ⟨roles, ga, ug, gb, l, h1, h2, h3, h4⟩
    | ⟨roles, groups, grpRoles, ra, r, rb, h1, h2, h3, h4, h5, h6⟩
    | ⟨roles, groups, grpRoles, ra, r, rb, pids, pa, pid, pb,
       h1, h2, h3, h4, h5, h6, h7, h8, h9⟩
  · simp [Can, h1]
  · simp [Can, h1, h2]
  · have hg := collectGroupRoles_error_of m ug gb e h4 ga ⟨l, h3⟩
    simp [Can, h1, h2, hg]
  · have hs := scanRoles_error_at m resource action r rb e (Or.inl h6) ra h5
    rw [← h4] at hs
    simp [Can, h1, h2, h3, hs]
  · have hperr := scanPerms_error_at m resource action pid pb e (Or.inl h9) pa h8
    rw [← h7] at hperr
    have hs := scanRoles_error_at m resource action r rb e
      (Or.inr ⟨pids, h6, hperr⟩) ra h5
    rw [← h4] at hs
    simp [Can, h1, h2, h3, hs]

/-- Witness for C6: in `mgrURErr` the direct-role lookup fails with
store error 7 and `Can` returns exactly that error with `false`. -/
theorem Can_aborts_on_lookup_error_witness :
    Can mgrURErr (gs "alice") (gs "survey") (gs "read") =
      (false, some (.storeErr 7)) :=
  Can_aborts_on_lookup_error mgrURErr (gs "alice") (gs "survey") (gs "read")
    (.storeErr 7) (Or.inl rfl)

/-- C7: when the evaluation reaches a permission record (all earlier
lookups succeeded, all earlier roles and permissions were scanned
without a match) and the matcher fails on its resource pattern — or on
its action pattern after the resource matched — `Can` returns that
matcher error with `false` instead of treating the permission as a
non-match. -/
theorem Can_propagates_bad_pattern (m : Manager)
    (userID resource action : GoString) (e : GoErr)
    (h : ∃ roles groups grpRoles ra r rb pids pa pid pb perm,
        m.urListRoles userID = .ok roles ∧
        m.ugGetGroupsByUserID userID = .ok groups ∧
        collectGroupRoles m groups = .ok grpRoles ∧
        roles ++ grpRoles = ra ++ r :: rb ∧
        scanRoles m resource action ra = .ok false ∧
        m.rpListPermissions r = .ok pids ∧
        pids = pa ++ pid :: pb ∧
        scanPerms m resource action pa = .ok false ∧
        m.permsGetPermissionByID pid = .ok (some perm) ∧
        (matchResource perm.resource resource = .error e
         ∨ (matchResource perm.resource resource = .ok true ∧
            pathMatch perm.action action = .error e))) :
    Can m userID resource action = (false, some e) := by
  obtain ⟨roles, groups, grpRoles, ra, r, rb, pids, pa, pid, pb, perm,
    h1, h2, h3, h4, h5, h6, h7, h8, h9, h10⟩ := h
  have hperr := scanPerms_error_at m resource action pid pb e
    (Or.inr ⟨perm, h9, h10⟩) pa h8
  rw [← h7] at hperr
  have hs := scanRoles_error_at m resource action r rb e
    (Or.inr ⟨pids, h6, hperr⟩) ra h5
  rw [← h4] at hs
  simp [Can, h1, h2, h3, hs]

/-- Witness for C7: in `mgrBadPat` the only permission has the
malformed resource pattern "survey.[" (unbalanced bracket), and `Can`
returns the bad-pattern error with `false`. -/
theorem Can_propagates_bad_pattern_witness :
    Can mgrBadPat (gs "alice") (gs "survey.x") (gs "read") =
      (false, some .badPattern) :=
  Can_propagates_bad_pattern mgrBadPat (gs "alice") (gs "survey.x") (gs "read")
    .badPattern
    ⟨[gs "r1"], [], [], [], gs "r1", [], [gs "p1"], [], gs "p1", [], permBadPat,
     by decide, rfl, rfl, rfl, rfl, by decide, rfl, rfl, by decide,
     Or.inl (by decide)⟩

/-- C8: a permission ID whose fetch reports the record absent (nil
record, nil error) is skipped by the permission loop of `Can`: the scan
over any list containing it equals the scan over the list without it —
so it neither raises an error nor prevents a later permission from
granting access. -/
theorem dangling_permission_skipped (m : Manager)
    (resource action pid : GoString) (pa pb : List GoString)
    (h : m.permsGetPermissionByID pid = .ok none) :
    scanPerms m resource action (pa ++ pid :: pb) =
      scanPerms m resource action (pa ++ pb) := by
  induction pa with
  | nil => simp [scanPerms, h]
  | cons q rest ih =>
    rw [List.cons_append, List.cons_append, scanPerms, scanPerms]
    cases hq : m.permsGetPermissionByID q with
    | error e => rfl
    | ok op =>
      cases op with
      | none => dsimp only; exact ih
      | some perm =>
        dsimp only
        cases hres : matchResource perm.resource resource with
        | error e => rfl
        | ok bres =>
          cases bres with
          | false => dsimp only; exact ih
          | true =>
            dsimp only
            cases hact : pathMatch perm.action action with
            | error e => rfl
            | ok bact =>
              cases bact with
              | false => dsimp only; exact ih
              | true => rfl

/-- Witness for C8: in `mgrDangling` role r1 lists the dangling ID
"dead" before p1; the scan with the dangling entry equals the scan
without it (and both allow the request). -/
theorem dangling_permission_skipped_witness :
    scanPerms mgrDangling (gs "survey") (gs "read") (gs "dead" :: [gs "p1"]) =
      scanPerms mgrDangling (gs "survey") (gs "read") [gs "p1"] :=
  dangling_permission_skipped mgrDangling (gs "survey") (gs "read")
    (gs "dead") [] [gs "p1"] (by decide)

/-- C9 counterexample: the claim says a pattern containing "**" twice
is rejected with an error at permission-creation time, but
`CreatePermission` performs no pattern validation: creating a
permission with resource "a.**.b.**.c" returns a nil error. -/
theorem doubleStar_twice_not_rejected_counterexample :
    (mongoCreatePermission []
      { id := gs "", resource := gs "a.**.b.**.c", action := gs "read",
        createdAt := 0 } (gs "id1") 5).2.2 = none := by
  decide

/-- C9 amended: a pattern with two or more "**" occurrences is stored
unvalidated by `CreatePermission`, and `matchResource` splits it at the
first occurrence only, treating the remaining "**" as literal text: the
resource carrying a literal "**" matches while the natural
double-wildcard reading does not. -/
theorem doubleStar_twice_split_at_first :
    (mongoCreatePermission []
      { id := gs "", resource := gs "a.**.b.**.c", action := gs "read",
        createdAt := 0 } (gs "id1") 5).1 =
      [{ id := gs "id1", resource := gs "a.**.b.**.c", action := gs "read",
         createdAt := 5 }] ∧
    matchResource (gs "a.**.b.**.c") (gs "a.X.b.**.c") = .ok true ∧
    matchResource (gs "a.**.b.**.c") (gs "a.x.b.y.c") = .ok false := by
  decide

/-- C10: whenever `Can` or `HasPermission` returns a non-nil error, the
accompanying boolean is `false` — the pair `(true, non-nil error)` is
never produced. -/
theorem error_implies_false (m : Manager)
    (userID resource action permID : GoString) :
    ((Can m userID resource action).2.isSome = true →
      (Can m userID resource action).1 = false) ∧
    ((HasPermission m userID permID).2.isSome = true →
      (HasPermission m userID permID).1 = false) := by
  constructor
  · cases h1 : m.urListRoles userID with
    | error e => simp [Can, h1]
    | ok roles =>
      cases h2 : m.ugGetGroupsByUserID userID with
      | error e => simp [Can, h1, h2]
      | ok groups =>
        cases h3 : collectGroupRoles m groups with
        | error e => simp [Can, h1, h2, h3]
        | ok grpRoles =>
          cases h4 : scanRoles m resource action (roles ++ grpRoles) with
          | error e => simp [Can, h1, h2, h3, h4]
          | ok allow => simp [Can, h1, h2, h3, h4]
  · cases h1 : m.urListRoles userID with
    | error e => simp [HasPermission, h1]
    | ok roles =>
      cases h2 : hasPermScanRoles m permID roles with
      | error e => simp [HasPermission, h1, h2]
      | ok b => simp [HasPermission, h1, h2]

/-- Witness for C10: in `mgrURErr` both entry points carry a non-nil
error and their booleans are `false`. -/
theorem error_implies_false_witness :
    (Can mgrURErr (gs "alice") (gs "survey") (gs "read")).1 = false ∧
    (HasPermission mgrURErr (gs "alice") (gs "p1")).1 = false :=
  ⟨(error_implies_false mgrURErr (gs "alice") (gs "survey") (gs "read")
      (gs "p1")).1 (by decide),
   (error_implies_false mgrURErr (gs "alice") (gs "survey") (gs "read")
      (gs "p1")).2 (by decide)⟩

end Rbac
